import Mathlib

/-!
Verification of the jfor interpreter (`src/jfor_semicolons.py`).

The Python program is a tiny line-oriented FOR interpreter.  We give a
shallow embedding: source lines are modelled by the inductive `Line`
(the output of the regex-based line classifier), expressions by a small
expression language `Expr` evaluated against the shared environment
(`_eval` is an external collaborator in the design: it receives an
expression text and the environment and returns a value or fails; our
`Expr.fail` models an expression whose evaluation raises), and the
recursive executor `_exec_lines` / `_run_block` / the three loop forms
by a fuel-indexed family of functions built as one structure `Interp`
so that all definitions are structurally recursive and computable.

Machine-level notes on fidelity:
  * Python dict env  ->  association list with overwrite (`setEnv`).
  * `print(val)`     ->  values appended to `St.out` in order.
  * exceptions       ->  `Res.err e st` carrying the error and the state
                         (output produced so far) at the raise point.
  * Python's unbounded `while` loops  ->  fuel; `Res.timeout` means the
    fuel ran out, never that the program mis-stepped.
  * the counter loop compares/advances numbers; values are coerced with
    `asNum` after the block is collected, exactly where the Python code
    first uses them as numbers (`step > 0` comes after `_collect_block`),
    while the `step == 0` check (`pyEqZero`) comes before, as in the
    source (lines 44-51).
-/

namespace JFor

/-- Dynamically typed values produced by the expression evaluator
(numbers, strings, booleans, sequences), cf. spec section 3. -/
inductive Value where
  | num : Int → Value
  | str : String → Value
  | vbool : Bool → Value
  | list : List Value → Value

/-- The error kinds of the program: `unrecognized i t` is
`SyntaxError("Unrecognized line {i+1}: {line}")` (source line 142, the
number is 1-based in the line list currently being executed),
`missingEnd` is `SyntaxError("missing 'end'")` (line 159), `zeroStep`
is `ValueError("by step cannot be 0")` (line 49), `evalFail` is a
failure raised by the expression evaluator, `typeErr` a host type error
(e.g. a non-number used as a loop bound or a non-iterable collection). -/
inductive Err where
  | unrecognized : Nat → String → Err
  | missingEnd : Err
  | zeroStep : Err
  | evalFail : String → Err
  | typeErr : Err

/-- The single shared environment: `self.env`, a mutable mapping from
identifier to value. -/
abbrev Env := List (String × Value)

/-- Dictionary lookup in the environment. -/
def lookupEnv : Env → String → Option Value
  | [], _ => none
  | (k, v) :: rest, x => if k = x then some v else lookupEnv rest x

/-- Dictionary update `self.env[name] = value` (overwrite or append). -/
def setEnv : Env → String → Value → Env
  | [], x, v => [(x, v)]
  | (k, w) :: rest, x, v =>
      if k = x then (k, v) :: rest else (k, w) :: setEnv rest x v

/-- Expressions handed to the external evaluator `_eval` (source line
28-29).  `fail msg` models an expression whose evaluation raises. -/
inductive Expr where
  | lit : Value → Expr
  | var : String → Expr
  | add : Expr → Expr → Expr
  | sub : Expr → Expr → Expr
  | lt : Expr → Expr → Expr
  | fail : String → Expr

/-- Evaluate an expression against the environment; returns a value or
an evaluation failure (the collaborator contract of spec section 6). -/
def evalE (ρ : Env) : Expr → Except Err Value
  | .lit v => .ok v
  | .var x =>
      match lookupEnv ρ x with
      | some v => .ok v
      | none => .error (.evalFail x)
  | .add a b =>
      match evalE ρ a with
      | .error e => .error e
      | .ok x =>
        match evalE ρ b with
        | .error e => .error e
        | .ok y =>
          match x, y with
          | .num m, .num n => .ok (.num (m + n))
          | .str s, .str t => .ok (.str (s ++ t))
          | .list s, .list t => .ok (.list (s ++ t))
          | _, _ => .error .typeErr
  | .sub a b =>
      match evalE ρ a with
      | .error e => .error e
      | .ok x =>
        match evalE ρ b with
        | .error e => .error e
        | .ok y =>
          match x, y with
          | .num m, .num n => .ok (.num (m - n))
          | _, _ => .error .typeErr
  | .lt a b =>
      match evalE ρ a with
      | .error e => .error e
      | .ok x =>
        match evalE ρ b with
        | .error e => .error e
        | .ok y =>
          match x, y with
          | .num m, .num n => .ok (.vbool (decide (m < n)))
          | _, _ => .error .typeErr
  | .fail msg => .error (.evalFail msg)

/-- Host truthiness (`bool(...)` in the source, line 110). -/
def truthy : Value → Bool
  | .num n => !(n == 0)
  | .str s => !(s == "")
  | .vbool b => b
  | .list l => !l.isEmpty

/-- Python's `step == 0` (source line 48): true for the number zero
(and for `False`, which compares equal to 0 in the host language). -/
def pyEqZero : Value → Bool
  | .num n => n == 0
  | .vbool b => !b
  | _ => false

/-- View a value as a number where the source uses it arithmetically
(host booleans are numbers: `True == 1`, `False == 0`). -/
def asNum : Value → Option Int
  | .num n => some n
  | .vbool b => some (if b then 1 else 0)
  | _ => none

/-- View a value as an iterable sequence for the iterator form
(source line 73); strings iterate over their characters in the host. -/
def asList : Value → Option (List Value)
  | .list l => some l
  | .str s => some (s.toList.map fun c => .str c.toString)
  | _ => none

/-- A parsed init/step clause of the C-style form: the result of
`do_assign` (source lines 84-92): either `("assign", name, rhs)` or
`("expr", s)`; the empty clause is `Option.none` at the use site. -/
inductive Clause where
  | cassign : String → Expr → Clause
  | cexpr : Expr → Clause

/-- A classified source line: the output of the line classifier
(regexes `RX_FOR_COUNTER`, `RX_FOR_ITER`, `RX_FOR_CSTYLE`, `RX_END`,
`RX_PRINT`, `RX_ASSIGN`, source lines 16-21), with `blank` for
blank/comment lines, and `unrec t` for a line of text `t` matching
nothing. -/
inductive Line where
  | blank : Line
  | forCounter : String → Expr → Expr → Option Expr → Line
  | forIter : String → Expr → Line
  | forC : Option Clause → Option Expr → Option Clause → Line
  | endL : Line
  | printL : Expr → Line
  | assign : String → Expr → Line
  | unrec : String → Line

/-- A line is one of the three loop-header forms (the test on source
line 151). -/
def isHeader : Line → Bool
  | .forCounter _ _ _ _ => true
  | .forIter _ _ => true
  | .forC _ _ _ => true
  | _ => false

/-- A line is the terminator `end` (`RX_END`, test on source line 153). -/
def isEnd : Line → Bool
  | .endL => true
  | _ => false

/-- Execution state: the shared environment plus the output printed so
far (in program order). -/
structure St where
  env : Env
  out : List Value

/-- Result of running a piece of the program: normal completion, an
uncaught exception (carrying the state — in particular the output —
at the raise point), or fuel exhaustion. -/
inductive Res (α : Type) where
  | ok : α → Res α
  | err : Err → St → Res α
  | timeout : Res α

/-- Execute an optional init/step clause of the C-style loop (source
lines 101-106 and 114-119): an assignment clause binds, a bare
expression is evaluated and its value discarded, an absent clause does
nothing. -/
def doClauseOpt : Option Clause → St → Res St
  | none, st => .ok st
  | some (.cassign x e), st =>
      match evalE st.env e with
      | .ok v => .ok { st with env := setEnv st.env x v }
      | .error er => .err er st
  | some (.cexpr e), st =>
      match evalE st.env e with
      | .ok _ => .ok st
      | .error er => .err er st

/-- Evaluate the optional `by` expression; when `by` is omitted the
step is the literal `1` (source line 47). -/
def evalStep (ρ : Env) : Option Expr → Except Err Value
  | some e => evalE ρ e
  | none => .ok (.num 1)

/-- Evaluate the C-style condition clause: an empty condition is always
true, otherwise host truthiness of the evaluated value (source
line 110). -/
def evalCond (ρ : Env) : Option Expr → Except Err Bool
  | none => .ok true
  | some c =>
      match evalE ρ c with
      | .ok v => .ok (truthy v)
      | .error e => .error e

/-- The scan of `_collect_block` (source lines 146-159) over the
remaining lines `rest` (which start at absolute index `i`): each
header increments the depth, each terminator decrements it; at depth 0
the body collected so far is returned together with the index just past
the terminator; running out of lines is the missing-terminator error. -/
def collectBlockAux : List Line → Nat → Nat → List Line → Except Err (List Line × Nat)
  | [], _, _, _ => .error .missingEnd
  | l :: rest, i, depth, acc =>
      let d := if isHeader l then depth + 1 else depth
      if isEnd l then
        (if d - 1 = 0 then .ok (acc.reverse, i + 1)
         else collectBlockAux rest (i + 1) (d - 1) (l :: acc))
      else collectBlockAux rest (i + 1) d (l :: acc)

/-- `_collect_block(lines, i)`: collect the body lines from index `i`
until the matching `end`, starting with depth 1. -/
def collectBlock (lines : List Line) (i : Nat) : Except Err (List Line × Nat) :=
  collectBlockAux (lines.drop i) i 1 []

/-- One fuel stage of the mutually recursive executors: `execL` is
`_exec_lines`, `runB` is `_run_block`, `ctrP`/`ctrN` are the two
`while` loops of the counter form (positive and negative step), `itrL`
is the `for v in it` loop of the iterator form, `cstL` is the
`while True` loop of the C-style form. -/
structure Interp where
  execL : List Line → Nat → St → Res (Nat × St)
  runB : List Line → Nat → St → Res St
  ctrP : String → Int → Int → Int → List Line → St → Res St
  ctrN : String → Int → Int → Int → List Line → St → Res St
  itrL : String → List Value → List Line → St → Res St
  cstL : Option Expr → Option Clause → List Line → St → Res St

/-- `_exec_lines(lines, i)` (source lines 31-144), one fuel layer:
dispatch on the classification of `lines[i]`, execute statements,
delegate loop headers to `_collect_block` plus the matching loop
executor, return the next index at an `end` line or at the end of the
list. -/
def execLinesF (I : Interp) : List Line → Nat → St → Res (Nat × St) :=
  fun lines i st =>
    match lines[i]? with
    | none => .ok (i, st)
    | some l =>
      match l with
      | .blank => I.execL lines (i + 1) st
      | .forCounter var aE bE sE =>
          match evalE st.env aE with
          | .error e => .err e st
          | .ok av =>
            match evalE st.env bE with
            | .error e => .err e st
            | .ok bv =>
              match evalStep st.env sE with
              | .error e => .err e st
              | .ok sv =>
                if pyEqZero sv then .err .zeroStep st
                else
                  match collectBlock lines (i + 1) with
                  | .error e => .err e st
                  | .ok (block, j) =>
                    match asNum av with
                    | none => .err .typeErr st
                    | some a =>
                      match asNum bv with
                      | none => .err .typeErr st
                      | some b =>
                        match asNum sv with
                        | none => .err .typeErr st
                        | some s =>
                          if 0 < s then
                            match I.ctrP var a b s block st with
                            | .ok st1 => I.execL lines j st1
                            | .err e s2 => .err e s2
                            | .timeout => .timeout
                          else
                            match I.ctrN var a b s block st with
                            | .ok st1 => I.execL lines j st1
                            | .err e s2 => .err e s2
                            | .timeout => .timeout
      | .forIter var cE =>
          match evalE st.env cE with
          | .error e => .err e st
          | .ok cv =>
            match collectBlock lines (i + 1) with
            | .error e => .err e st
            | .ok (block, j) =>
              match asList cv with
              | some elems =>
                  match I.itrL var elems block st with
                  | .ok st1 => I.execL lines j st1
                  | .err e s2 => .err e s2
                  | .timeout => .timeout
              | none => .err .typeErr st
      | .forC init cond step =>
          match collectBlock lines (i + 1) with
          | .error e => .err e st
          | .ok (block, j) =>
            match doClauseOpt init st with
            | .ok st1 =>
                match I.cstL cond step block st1 with
                | .ok st2 => I.execL lines j st2
                | .err e s2 => .err e s2
                | .timeout => .timeout
            | .err e s2 => .err e s2
            | .timeout => .timeout
      | .endL => .ok (i, st)
      | .printL e =>
          match evalE st.env e with
          | .error er => .err er st
          | .ok v => I.execL lines (i + 1) { st with out := st.out ++ [v] }
      | .assign x e =>
          match evalE st.env e with
          | .error er => .err er st
          | .ok v => I.execL lines (i + 1) { st with env := setEnv st.env x v }
      | .unrec t => .err (.unrecognized (i + 1) t) st

/-- `_run_block(block_lines)` (source lines 161-164), one fuel layer:
run `_exec_lines` from `j` and jump past the `end` it stopped at. -/
def runBlockF (I : Interp) : List Line → Nat → St → Res St :=
  fun block j st =>
    if j < block.length then
      match I.execL block j st with
      | .ok (j2, st2) => I.runB block (j2 + 1) st2
      | .err e s2 => .err e s2
      | .timeout => .timeout
    else .ok st

/-- The positive-step counter loop `while n <= end` (source lines
53-58): bind the variable, run the body, advance by the step. -/
def ctrPF (I : Interp) : String → Int → Int → Int → List Line → St → Res St :=
  fun var n e s block st =>
    if n ≤ e then
      match I.runB block 0 { st with env := setEnv st.env var (.num n) } with
      | .ok st1 => I.ctrP var (n + s) e s block st1
      | .err er s2 => .err er s2
      | .timeout => .timeout
    else .ok st

/-- The negative-step counter loop `while n >= end` (source lines
59-64). -/
def ctrNF (I : Interp) : String → Int → Int → Int → List Line → St → Res St :=
  fun var n e s block st =>
    if e ≤ n then
      match I.runB block 0 { st with env := setEnv st.env var (.num n) } with
      | .ok st1 => I.ctrN var (n + s) e s block st1
      | .err er s2 => .err er s2
      | .timeout => .timeout
    else .ok st

/-- The iterator loop `for v in it` (source lines 73-75): bind the
variable to each element in order and run the body once per element. -/
def itrLF (I : Interp) : String → List Value → List Line → St → Res St :=
  fun var vs block st =>
    match vs with
    | [] => .ok st
    | v :: rest =>
        match I.runB block 0 { st with env := setEnv st.env var v } with
        | .ok st1 => I.itrL var rest block st1
        | .err er s2 => .err er s2
        | .timeout => .timeout

/-- The C-style `while True` loop (source lines 109-119): evaluate the
condition (pre-test), break if falsy, run the body, then the step
clause, then re-test. -/
def cstLF (I : Interp) : Option Expr → Option Clause → List Line → St → Res St :=
  fun cond step block st =>
    match evalCond st.env cond with
    | .error e => .err e st
    | .ok ok =>
        if ok then
          match I.runB block 0 st with
          | .ok st1 =>
              match doClauseOpt step st1 with
              | .ok st2 => I.cstL cond step block st2
              | .err e s2 => .err e s2
              | .timeout => .timeout
          | .err e s2 => .err e s2
          | .timeout => .timeout
        else .ok st

/-- Out of fuel: every executor times out. -/
def interpZ : Interp :=
  ⟨fun _ _ _ => .timeout, fun _ _ _ => .timeout,
   fun _ _ _ _ _ _ => .timeout, fun _ _ _ _ _ _ => .timeout,
   fun _ _ _ _ => .timeout, fun _ _ _ _ => .timeout⟩

/-- One more layer of fuel on top of `I`. -/
def interpS (I : Interp) : Interp :=
  ⟨execLinesF I, runBlockF I, ctrPF I, ctrNF I, itrLF I, cstLF I⟩

/-- The fuel-indexed interpreter. -/
def interp : Nat → Interp
  | 0 => interpZ
  | f + 1 => interpS (interp f)

/-- `_exec_lines` at a given fuel. -/
def execLines (f : Nat) : List Line → Nat → St → Res (Nat × St) :=
  (interp f).execL

/-- `_run_block` at a given fuel. -/
def runBlock (f : Nat) : List Line → Nat → St → Res St :=
  (interp f).runB

/-- The positive-step counter loop at a given fuel. -/
def counterLoopPos (f : Nat) : String → Int → Int → Int → List Line → St → Res St :=
  (interp f).ctrP

/-- The negative-step counter loop at a given fuel. -/
def counterLoopNeg (f : Nat) : String → Int → Int → Int → List Line → St → Res St :=
  (interp f).ctrN

/-- The iterator loop at a given fuel. -/
def iterLoop (f : Nat) : String → List Value → List Line → St → Res St :=
  (interp f).itrL

/-- The C-style loop at a given fuel. -/
def cLoop (f : Nat) : Option Expr → Option Clause → List Line → St → Res St :=
  (interp f).cstL

/-- The empty starting state (a fresh `JFOR()` instance). -/
def initSt : St := ⟨[], []⟩

/-- `run(src)` (source lines 166-170): execute the whole program; the
top-level driver has exactly the shape of `_run_block`. -/
def run (f : Nat) (lines : List Line) (st : St) : Res St :=
  runBlock f lines 0 st

/-- Derived form of the counter loop: bind the variable to each listed
value in turn and run the body once per value (errors propagate,
remaining values are abandoned). -/
def runSeq : Nat → String → List Int → List Line → St → Res St
  | 0, _, _, _, _ => .timeout
  | _ + 1, _, [], _, st => .ok st
  | f + 1, var, v :: vs, block, st =>
      match runBlock f block 0 { st with env := setEnv st.env var (.num v) } with
      | .ok st1 => runSeq f var vs block st1
      | .err e s2 => .err e s2
      | .timeout => .timeout

/-- The value sequence of the positive-direction counter loop: `n`,
`n+s`, ... while the current value stays `≤ e` (fuel-bounded). -/
def countSeqF : Nat → Int → Int → Int → List Int
  | 0, _, _, _ => []
  | f + 1, n, e, s => if n ≤ e then n :: countSeqF f (n + s) e s else []

/-- The value sequence of the negative-direction counter loop: `n`,
`n+s`, ... while the current value stays `≥ e` (fuel-bounded). -/
def countSeqG : Nat → Int → Int → Int → List Int
  | 0, _, _, _ => []
  | f + 1, n, e, s => if e ≤ n then n :: countSeqG f (n + s) e s else []

/-! ### Concrete test programs -/

/-- `for i = 1 to 5 by 2 do print i end`. -/
def progCounterDemo : List Line :=
  [.forCounter "i" (.lit (.num 1)) (.lit (.num 5)) (some (.lit (.num 2))),
   .printL (.var "i"), .endL]

/-- `for i = 1 to 3 do print i end` (no `by`). -/
def progCounterNoBy : List Line :=
  [.forCounter "i" (.lit (.num 1)) (.lit (.num 3)) none,
   .printL (.var "i"), .endL]

/-- `for i = 5 to 1 do print i end`: start past end with positive step. -/
def progCounterEmpty : List Line :=
  [.forCounter "i" (.lit (.num 5)) (.lit (.num 1)) none,
   .printL (.var "i"), .endL]

/-- Two sequential top-level counter loops, each containing one nested
loop (the depth-counter regression program of spec section 8). -/
def progTwoNested : List Line :=
  [.forCounter "i" (.lit (.num 1)) (.lit (.num 2)) none,
   .forCounter "j" (.lit (.num 1)) (.lit (.num 1)) none,
   .printL (.var "i"),
   .endL,
   .endL,
   .forCounter "k" (.lit (.num 1)) (.lit (.num 2)) none,
   .forCounter "l" (.lit (.num 1)) (.lit (.num 1)) none,
   .printL (.var "k"),
   .endL,
   .endL]

/-- Two nested iterator headers followed by their two terminators; used
to probe the block matcher directly. -/
def linesNestedDemo : List Line :=
  [.forIter "a" (.lit (.num 1)), .forIter "b" (.lit (.num 2)), .endL, .endL]

/-- A nested header whose inner loop is terminated but whose outer loop
is not. -/
def linesMissingNested : List Line :=
  [.forIter "a" (.lit (.num 1)), .forIter "b" (.lit (.num 2)), .endL,
   .printL (.lit (.num 1))]

/-- `for (j = 0; j < 3; j = j + 1) do print j end`. -/
def progCDemo : List Line :=
  [.forC (some (.cassign "j" (.lit (.num 0))))
         (some (.lt (.var "j") (.lit (.num 3))))
         (some (.cassign "j" (.add (.var "j") (.lit (.num 1))))),
   .printL (.var "j"), .endL]

/-- `x = 2` then `for (; 0 < x; ) do print x  x = x - 1 end`
(while-style: empty init and step clauses). -/
def progWhileStyle : List Line :=
  [.assign "x" (.lit (.num 2)),
   .forC none (some (.lt (.lit (.num 0)) (.var "x"))) none,
   .printL (.var "x"),
   .assign "x" (.sub (.var "x") (.lit (.num 1))),
   .endL]

/-- `for w in ["Hello","Bonjour"] do print w end`. -/
def progIterDemo : List Line :=
  [.forIter "w" (.lit (.list [.str "Hello", .str "Bonjour"])),
   .printL (.var "w"), .endL]

/-- `print 10` then an unterminated counter loop, then `print 20`. -/
def progMissingEnd : List Line :=
  [.printL (.lit (.num 10)),
   .forCounter "i" (.lit (.num 1)) (.lit (.num 3)) none,
   .printL (.lit (.num 20))]

/-- An unterminated counter header alone. -/
def progCtrNoEnd : List Line :=
  [.forCounter "i" (.lit (.num 1)) (.lit (.num 3)) none]

/-- An unterminated iterator header alone. -/
def progIterNoEnd : List Line :=
  [.forIter "w" (.lit (.list []))]

/-- An unterminated C-style header alone. -/
def progCNoEnd : List Line :=
  [.forC none none none]

/-- `for i = 5 to 1 by 0 do print i end`: zero step. -/
def progZeroStep : List Line :=
  [.forCounter "i" (.lit (.num 5)) (.lit (.num 1)) (some (.lit (.num 0))),
   .printL (.var "i"), .endL]

/-- A zero-step counter loop whose start is not even a number. -/
def progZeroStepStr : List Line :=
  [.forCounter "i" (.lit (.str "x")) (.lit (.num 1)) (some (.lit (.num 0))),
   .printL (.var "i"), .endL]

/-- An assignment, then a loop whose one-line body is unrecognizable. -/
def progBadLine : List Line :=
  [.assign "x" (.lit (.num 1)),
   .forCounter "i" (.lit (.num 1)) (.lit (.num 1)) none,
   .unrec "bad",
   .endL]

/-- An assignment followed by a top-level unrecognizable line. -/
def progBadTop : List Line :=
  [.assign "x" (.lit (.num 1)), .unrec "oops"]

/-- A stray terminator followed by an assignment. -/
def progStrayEnd : List Line :=
  [.endL, .assign "x" (.lit (.num 1))]

/-- An unterminated counter header whose start expression fails. -/
def progFailHeaderNoEnd : List Line :=
  [.forCounter "i" (.fail "boom") (.lit (.num 3)) none]

/-- An unterminated iterator header whose collection expression fails. -/
def progFailIterNoEnd : List Line :=
  [.forIter "w" (.fail "boom")]

/-- An unterminated counter header with step 0. -/
def progZeroStepNoEnd : List Line :=
  [.forCounter "i" (.lit (.num 1)) (.lit (.num 3)) (some (.lit (.num 0)))]

/-- An unterminated C-style header whose init clause would fail. -/
def progFailInitNoEnd : List Line :=
  [.forC (some (.cassign "x" (.fail "boom"))) none none]

/-- A counter loop with an empty body, then `print i`. -/
def progCounterPersist : List Line :=
  [.forCounter "i" (.lit (.num 1)) (.lit (.num 3)) none, .endL,
   .printL (.var "i")]

/-- An iterator loop with an empty body, then `print w`. -/
def progIterPersist : List Line :=
  [.forIter "w" (.lit (.list [.num 10, .num 20])), .endL,
   .printL (.var "w")]

/-- A C-style loop with an empty body, then `print j`. -/
def progCPersist : List Line :=
  [.forC (some (.cassign "j" (.lit (.num 0))))
         (some (.lt (.var "j") (.lit (.num 2))))
         (some (.cassign "j" (.add (.var "j") (.lit (.num 1))))),
   .endL,
   .printL (.var "j")]

/-! ### Unfolding equations for the fuel-indexed executors -/

lemma execLines_zero (lines : List Line) (i : Nat) (st : St) :
    execLines 0 lines i st = .timeout := rfl

lemma runBlock_zero (block : List Line) (j : Nat) (st : St) :
    runBlock 0 block j st = .timeout := rfl

lemma counterLoopPos_zero (var : String) (n e s : Int) (block : List Line) (st : St) :
    counterLoopPos 0 var n e s block st = .timeout := rfl

lemma counterLoopNeg_zero (var : String) (n e s : Int) (block : List Line) (st : St) :
    counterLoopNeg 0 var n e s block st = .timeout := rfl

lemma iterLoop_zero (var : String) (vs : List Value) (block : List Line) (st : St) :
    iterLoop 0 var vs block st = .timeout := rfl

lemma cLoop_zero (cond : Option Expr) (step : Option Clause) (block : List Line) (st : St) :
    cLoop 0 cond step block st = .timeout := rfl

lemma execLines_succ (f : Nat) : execLines (f + 1) = execLinesF (interp f) := rfl

lemma runBlock_succ (f : Nat) : runBlock (f + 1) = runBlockF (interp f) := rfl

lemma counterLoopPos_succ (f : Nat) : counterLoopPos (f + 1) = ctrPF (interp f) := rfl

lemma counterLoopNeg_succ (f : Nat) : counterLoopNeg (f + 1) = ctrNF (interp f) := rfl

lemma iterLoop_succ (f : Nat) : iterLoop (f + 1) = itrLF (interp f) := rfl

lemma cLoop_succ (f : Nat) : cLoop (f + 1) = cstLF (interp f) := rfl

lemma interp_execL (f : Nat) : (interp f).execL = execLines f := rfl

lemma interp_runB (f : Nat) : (interp f).runB = runBlock f := rfl

lemma interp_ctrP (f : Nat) : (interp f).ctrP = counterLoopPos f := rfl

lemma interp_ctrN (f : Nat) : (interp f).ctrN = counterLoopNeg f := rfl

lemma interp_itrL (f : Nat) : (interp f).itrL = iterLoop f := rfl

lemma interp_cstL (f : Nat) : (interp f).cstL = cLoop f := rfl

/-! ### Environment lemmas -/

lemma lookup_setEnv (ρ : Env) (x : String) (v : Value) (y : String) :
    lookupEnv (setEnv ρ x v) y = if x = y then some v else lookupEnv ρ y := by
  induction ρ with
  | nil =>
      by_cases h : x = y <;> simp [setEnv, lookupEnv, h]
  | cons p rest ih =>
      obtain ⟨k, w⟩ := p
      by_cases hkx : k = x
      · subst hkx
        by_cases hxy : k = y <;> simp [setEnv, lookupEnv, hxy]
      · by_cases hky : k = y
        · subst hky
          have hxy : x ≠ k := fun h => hkx h.symm
          simp [setEnv, lookupEnv, hkx, hxy]
        · simp [setEnv, lookupEnv, hkx, hky, ih]

lemma lookup_setEnv_self (ρ : Env) (x : String) (v : Value) :
    lookupEnv (setEnv ρ x v) x = some v := by
  simp [lookup_setEnv]

/-- Environment domain growth: every binding of `a` is still bound in
`b` (possibly with another value). -/
def envLe (a b : Env) : Prop :=
  ∀ k, (lookupEnv a k).isSome = true → (lookupEnv b k).isSome = true

lemma envLe_refl (a : Env) : envLe a a := fun _ h => h

lemma envLe_trans {a b c : Env} (h1 : envLe a b) (h2 : envLe b c) : envLe a c :=
  fun k h => h2 k (h1 k h)

lemma envLe_set (ρ : Env) (x : String) (v : Value) : envLe ρ (setEnv ρ x v) := by
  intro k h
  rw [lookup_setEnv]
  by_cases hx : x = k <;> simp [hx, h]

/-! ### Line classification lemmas -/

lemma isEnd_iff (l : Line) : isEnd l = true ↔ l = Line.endL := by
  cases l <;> simp [isEnd]

lemma isHeader_of_isEnd {l : Line} (h : isEnd l = true) : isHeader l = false := by
  cases l <;> simp_all [isEnd, isHeader]

/-! ### Block matcher characterization

The scan of `_collect_block` returns the lines strictly between the
start position and the first depth-balanced terminator, excludes that
terminator, and reports the index just past it. -/

lemma collectAux_ok :
    ∀ (rest : List Line) (i depth : Nat) (acc blk : List Line) (j : Nat),
      1 ≤ depth →
      collectBlockAux rest i depth acc = .ok (blk, j) →
      ∃ m, m < rest.length ∧ j = i + m + 1 ∧
        blk = acc.reverse ++ rest.take m ∧
        rest[m]? = some Line.endL ∧
        depth + (rest.take m).countP isHeader = 1 + (rest.take m).countP isEnd ∧
        (∀ m2, m2 < m → rest[m2]? = some Line.endL →
          1 + (rest.take m2).countP isEnd < depth + (rest.take m2).countP isHeader) := by
  intro rest
  induction rest with
  | nil =>
      intro i depth acc blk j _ h
      exact absurd h (by simp [collectBlockAux])
  | cons l rest ih =>
      intro i depth acc blk j hd h
      simp only [collectBlockAux] at h
      by_cases hEnd : isEnd l = true
      · have hHdr : isHeader l = false := isHeader_of_isEnd hEnd
        have hl : l = Line.endL := (isEnd_iff l).mp hEnd
        simp only [hHdr, hEnd, if_true, Bool.false_eq_true, if_false] at h
        by_cases hd1 : depth - 1 = 0
        · rw [if_pos hd1] at h
          simp only [Except.ok.injEq, Prod.mk.injEq] at h
          obtain ⟨hblk, hj⟩ := h
          refine ⟨0, by simp, by omega, by simp [hblk.symm], by simp [hl], ?_, ?_⟩
          · simp; omega
          · intro m2 hm2; omega
        · rw [if_neg hd1] at h
          obtain ⟨m, hm, hj, hblk, hend, hcount, hmin⟩ :=
            ih (i + 1) (depth - 1) (l :: acc) blk j (by omega) h
          refine ⟨m + 1, by simpa using hm, by omega, ?_, by simpa using hend, ?_, ?_⟩
          · rw [hblk]
            simp [List.take_succ_cons]
          · simp only [List.take_succ_cons, List.countP_cons, hHdr, hEnd]
            simp only [if_true, Bool.false_eq_true, if_false]
            omega
          · intro m2 hm2 hend2
            match m2, hm2, hend2 with
            | 0, _, _ =>
                simp only [List.take_zero, List.countP_nil]
                omega
            | m2 + 1, hm2, hend2 =>
                have := hmin m2 (by omega) (by simpa using hend2)
                simp only [List.take_succ_cons, List.countP_cons, hHdr, hEnd]
                simp only [if_true, Bool.false_eq_true, if_false]
                omega
      · have hEnd' : isEnd l = false := by
          cases hb : isEnd l
          · rfl
          · exact absurd hb hEnd
        simp only [hEnd', Bool.false_eq_true, if_false] at h
        by_cases hHdr : isHeader l = true
        · simp only [hHdr, if_true] at h
          obtain ⟨m, hm, hj, hblk, hend, hcount, hmin⟩ :=
            ih (i + 1) (depth + 1) (l :: acc) blk j (by omega) h
          refine ⟨m + 1, by simpa using hm, by omega, ?_, by simpa using hend, ?_, ?_⟩
          · rw [hblk]
            simp [List.take_succ_cons]
          · simp only [List.take_succ_cons, List.countP_cons, hHdr, hEnd']
            simp only [if_true, Bool.false_eq_true, if_false]
            omega
          · intro m2 hm2 hend2
            match m2, hm2, hend2 with
            | 0, _, hend2 =>
                have : l = Line.endL := by simpa using hend2
                rw [this] at hEnd'
                simp [isEnd] at hEnd'
            | m2 + 1, hm2, hend2 =>
                have := hmin m2 (by omega) (by simpa using hend2)
                simp only [List.take_succ_cons, List.countP_cons, hHdr, hEnd']
                simp only [if_true, Bool.false_eq_true, if_false]
                omega
        · have hHdr' : isHeader l = false := by
            cases hb : isHeader l
            · rfl
            · exact absurd hb hHdr
          simp only [hHdr', Bool.false_eq_true, if_false] at h
          obtain ⟨m, hm, hj, hblk, hend, hcount, hmin⟩ :=
            ih (i + 1) depth (l :: acc) blk j hd h
          refine ⟨m + 1, by simpa using hm, by omega, ?_, by simpa using hend, ?_, ?_⟩
          · rw [hblk]
            simp [List.take_succ_cons]
          · simp only [List.take_succ_cons, List.countP_cons, hHdr', hEnd']
            simp only [Bool.false_eq_true, if_false]
            omega
          · intro m2 hm2 hend2
            match m2, hm2, hend2 with
            | 0, _, hend2 =>
                have : l = Line.endL := by simpa using hend2
                rw [this] at hEnd'
                simp [isEnd] at hEnd'
            | m2 + 1, hm2, hend2 =>
                have := hmin m2 (by omega) (by simpa using hend2)
                simp only [List.take_succ_cons, List.countP_cons, hHdr', hEnd']
                simp only [Bool.false_eq_true, if_false]
                omega

lemma collectAux_err :
    ∀ (rest : List Line) (i depth : Nat) (acc : List Line),
      1 ≤ depth →
      collectBlockAux rest i depth acc = .error .missingEnd →
      ∀ m, rest[m]? = some Line.endL →
        1 + (rest.take m).countP isEnd < depth + (rest.take m).countP isHeader := by
  intro rest
  induction rest with
  | nil =>
      intro i depth acc _ _ m hm
      simp at hm
  | cons l rest ih =>
      intro i depth acc hd h m hm
      simp only [collectBlockAux] at h
      by_cases hEnd : isEnd l = true
      · have hHdr : isHeader l = false := isHeader_of_isEnd hEnd
        simp only [hHdr, hEnd, if_true, Bool.false_eq_true, if_false] at h
        by_cases hd1 : depth - 1 = 0
        · rw [if_pos hd1] at h
          exact absurd h (by simp)
        · rw [if_neg hd1] at h
          match m, hm with
          | 0, _ =>
              simp only [List.take_zero, List.countP_nil]
              omega
          | m + 1, hm =>
              have := ih (i + 1) (depth - 1) (l :: acc) (by omega) h m (by simpa using hm)
              simp only [List.take_succ_cons, List.countP_cons, hHdr, hEnd]
              simp only [if_true, Bool.false_eq_true, if_false]
              omega
      · have hEnd' : isEnd l = false := by
          cases hb : isEnd l
          · rfl
          · exact absurd hb hEnd
        simp only [hEnd', Bool.false_eq_true, if_false] at h
        match m, hm with
        | 0, hm =>
            have : l = Line.endL := by simpa using hm
            rw [this] at hEnd'
            simp [isEnd] at hEnd'
        | m + 1, hm =>
            by_cases hHdr : isHeader l = true
            · simp only [hHdr, if_true] at h
              have := ih (i + 1) (depth + 1) (l :: acc) (by omega) h m (by simpa using hm)
              simp only [List.take_succ_cons, List.countP_cons, hHdr, hEnd']
              simp only [if_true, Bool.false_eq_true, if_false]
              omega
            · have hHdr' : isHeader l = false := by
                cases hb : isHeader l
                · rfl
                · exact absurd hb hHdr
              simp only [hHdr', Bool.false_eq_true, if_false] at h
              have := ih (i + 1) depth (l :: acc) hd h m (by simpa using hm)
              simp only [List.take_succ_cons, List.countP_cons, hHdr', hEnd']
              simp only [Bool.false_eq_true, if_false]
              omega

lemma collectAux_err_kind :
    ∀ (rest : List Line) (i depth : Nat) (acc : List Line) (e : Err),
      collectBlockAux rest i depth acc = .error e → e = .missingEnd := by
  intro rest
  induction rest with
  | nil =>
      intro i depth acc e h
      simp only [collectBlockAux, Except.error.injEq] at h
      exact h.symm
  | cons l rest ih =>
      intro i depth acc e h
      simp only [collectBlockAux] at h
      by_cases hEnd : isEnd l = true
      · simp only [hEnd, if_true] at h
        by_cases hd1 : (if isHeader l then depth + 1 else depth) - 1 = 0
        · rw [if_pos hd1] at h
          exact absurd h (by simp)
        · rw [if_neg hd1] at h
          exact ih _ _ _ _ h
      · have hEnd' : isEnd l = false := by
          cases hb : isEnd l
          · rfl
          · exact absurd hb hEnd
        simp only [hEnd', Bool.false_eq_true, if_false] at h
        exact ih _ _ _ _ h

lemma collectBlock_end (lines : List Line) (i : Nat) (h : lines[i]? = some Line.endL) :
    collectBlock lines i = .ok ([], i + 1) := by
  have hi : i < lines.length := by
    by_contra hq
    rw [List.getElem?_eq_none (le_of_not_lt hq)] at h
    exact absurd h (by simp)
  have hget : lines[i] = Line.endL := by
    rw [List.getElem?_eq_getElem hi] at h
    injection h
  have hdrop : lines.drop i = Line.endL :: lines.drop (i + 1) := by
    rw [List.drop_eq_getElem_cons hi, hget]
  rw [collectBlock, hdrop]
  simp [collectBlockAux, isEnd, isHeader]

/-! ### Counter loop characterization -/

lemma counterLoopPos_eq_runSeq :
    ∀ (f : Nat) (var : String) (n e s : Int) (block : List Line) (st : St),
      counterLoopPos f var n e s block st = runSeq f var (countSeqF f n e s) block st := by
  intro f
  induction f with
  | zero => intro var n e s block st; rfl
  | succ f ih =>
      intro var n e s block st
      rw [counterLoopPos_succ]
      unfold ctrPF
      by_cases h : n ≤ e
      · simp only [if_pos h, countSeqF, interp_runB, interp_ctrP, runSeq]
        cases hrb : runBlock f block 0 { st with env := setEnv st.env var (.num n) } with
        | ok st1 => exact ih var (n + s) e s block st1
        | err e2 s2 => rfl
        | timeout => rfl
      · simp only [if_neg h, countSeqF, runSeq]

lemma counterLoopNeg_eq_runSeq :
    ∀ (f : Nat) (var : String) (n e s : Int) (block : List Line) (st : St),
      counterLoopNeg f var n e s block st = runSeq f var (countSeqG f n e s) block st := by
  intro f
  induction f with
  | zero => intro var n e s block st; rfl
  | succ f ih =>
      intro var n e s block st
      rw [counterLoopNeg_succ]
      unfold ctrNF
      by_cases h : e ≤ n
      · simp only [if_pos h, countSeqG, interp_runB, interp_ctrN, runSeq]
        cases hrb : runBlock f block 0 { st with env := setEnv st.env var (.num n) } with
        | ok st1 => exact ih var (n + s) e s block st1
        | err e2 s2 => rfl
        | timeout => rfl
      · simp only [if_neg h, countSeqG, runSeq]

lemma countSeqF_mem :
    ∀ (f : Nat) (n e s v : Int), v ∈ countSeqF f n e s →
      ∃ k : Nat, v = n + (k : Int) * s ∧ v ≤ e := by
  intro f
  induction f with
  | zero => intro n e s v hv; simp [countSeqF] at hv
  | succ f ih =>
      intro n e s v hv
      rw [countSeqF] at hv
      by_cases h : n ≤ e
      · rw [if_pos h] at hv
        rcases List.mem_cons.mp hv with h0 | h1
        · exact ⟨0, by simp [h0], by rw [h0]; exact h⟩
        · obtain ⟨k, hk1, hk2⟩ := ih (n + s) e s v h1
          refine ⟨k + 1, ?_, hk2⟩
          rw [hk1]; push_cast; ring
      · rw [if_neg h] at hv; simp at hv

lemma countSeqG_mem :
    ∀ (f : Nat) (n e s v : Int), v ∈ countSeqG f n e s →
      ∃ k : Nat, v = n + (k : Int) * s ∧ e ≤ v := by
  intro f
  induction f with
  | zero => intro n e s v hv; simp [countSeqG] at hv
  | succ f ih =>
      intro n e s v hv
      rw [countSeqG] at hv
      by_cases h : e ≤ n
      · rw [if_pos h] at hv
        rcases List.mem_cons.mp hv with h0 | h1
        · exact ⟨0, by simp [h0], by rw [h0]; exact h⟩
        · obtain ⟨k, hk1, hk2⟩ := ih (n + s) e s v h1
          refine ⟨k + 1, ?_, hk2⟩
          rw [hk1]; push_cast; ring
      · rw [if_neg h] at hv; simp at hv

lemma counterLoopPos_ok_complete :
    ∀ (f : Nat) (var : String) (n e s : Int) (block : List Line) (st st2 : St),
      0 < s →
      counterLoopPos f var n e s block st = .ok st2 →
      ∀ k : Nat, n + (k : Int) * s ≤ e → (n + (k : Int) * s) ∈ countSeqF f n e s := by
  intro f
  induction f with
  | zero =>
      intro var n e s block st st2 _ h
      exact absurd h (by simp [counterLoopPos_zero])
  | succ f ih =>
      intro var n e s block st st2 hs h k hk
      rw [counterLoopPos_succ] at h
      unfold ctrPF at h
      simp only [interp_runB, interp_ctrP] at h
      by_cases hne : n ≤ e
      · rw [if_pos hne] at h
        rw [countSeqF, if_pos hne]
        match k, hk with
        | 0, _ =>
            have hv : n + ((0 : Nat) : Int) * s = n := by push_cast; ring
            rw [hv]
            exact List.mem_cons_self n _
        | k + 1, hk =>
            cases hrb : runBlock f block 0 { st with env := setEnv st.env var (.num n) } with
            | ok st1 =>
                rw [hrb] at h
                have hk2 : (n + s) + (k : Int) * s ≤ e := by
                  push_cast at hk; linarith [hk]
                have hmem := ih var (n + s) e s block st1 st2 hs h k hk2
                have hv : n + ((k + 1 : Nat) : Int) * s = (n + s) + (k : Int) * s := by
                  push_cast; ring
                rw [hv]
                exact List.mem_cons_of_mem n hmem
            | err e2 s2 => rw [hrb] at h; exact absurd h (by simp)
            | timeout => rw [hrb] at h; exact absurd h (by simp)
      · exfalso
        have h0 : (0 : Int) ≤ (k : Int) * s := mul_nonneg (Int.natCast_nonneg k) hs.le
        exact hne (le_trans (by linarith) hk)

lemma counterLoopNeg_ok_complete :
    ∀ (f : Nat) (var : String) (n e s : Int) (block : List Line) (st st2 : St),
      s < 0 →
      counterLoopNeg f var n e s block st = .ok st2 →
      ∀ k : Nat, e ≤ n + (k : Int) * s → (n + (k : Int) * s) ∈ countSeqG f n e s := by
  intro f
  induction f with
  | zero =>
      intro var n e s block st st2 _ h
      exact absurd h (by simp [counterLoopNeg_zero])
  | succ f ih =>
      intro var n e s block st st2 hs h k hk
      rw [counterLoopNeg_succ] at h
      unfold ctrNF at h
      simp only [interp_runB, interp_ctrN] at h
      by_cases hne : e ≤ n
      · rw [if_pos hne] at h
        rw [countSeqG, if_pos hne]
        match k, hk with
        | 0, _ =>
            have hv : n + ((0 : Nat) : Int) * s = n := by push_cast; ring
            rw [hv]
            exact List.mem_cons_self n _
        | k + 1, hk =>
            cases hrb : runBlock f block 0 { st with env := setEnv st.env var (.num n) } with
            | ok st1 =>
                rw [hrb] at h
                have hk2 : e ≤ (n + s) + (k : Int) * s := by
                  push_cast at hk; linarith [hk]
                have hmem := ih var (n + s) e s block st1 st2 hs h k hk2
                have hv : n + ((k + 1 : Nat) : Int) * s = (n + s) + (k : Int) * s := by
                  push_cast; ring
                rw [hv]
                exact List.mem_cons_of_mem n hmem
            | err e2 s2 => rw [hrb] at h; exact absurd h (by simp)
            | timeout => rw [hrb] at h; exact absurd h (by simp)
      · exfalso
        have h0 : (k : Int) * s ≤ 0 :=
          mul_nonpos_of_nonneg_of_nonpos (Int.natCast_nonneg k) hs.le
        exact hne (le_trans hk (by linarith))

lemma counterLoopPos_empty (f : Nat) (var : String) (n e s : Int) (block : List Line)
    (st : St) (h : e < n) : counterLoopPos (f + 1) var n e s block st = .ok st := by
  rw [counterLoopPos_succ]
  unfold ctrPF
  rw [if_neg (not_le.mpr h)]

lemma counterLoopNeg_empty (f : Nat) (var : String) (n e s : Int) (block : List Line)
    (st : St) (h : n < e) : counterLoopNeg (f + 1) var n e s block st = .ok st := by
  rw [counterLoopNeg_succ]
  unfold ctrNF
  rw [if_neg (not_le.mpr h)]

/-! ### The interpreter never unbinds an environment entry -/

lemma doClauseOpt_envLe :
    ∀ (c : Option Clause) (st st2 : St), doClauseOpt c st = .ok st2 → envLe st.env st2.env := by
  intro c st st2 h
  match c with
  | none =>
      simp only [doClauseOpt, Res.ok.injEq] at h
      subst h
      exact envLe_refl _
  | some (.cassign x e) =>
      simp only [doClauseOpt] at h
      cases he : evalE st.env e with
      | ok v =>
          rw [he] at h
          simp only [Res.ok.injEq] at h
          subst h
          exact envLe_set _ _ _
      | error er =>
          rw [he] at h
          simp at h
  | some (.cexpr e) =>
      simp only [doClauseOpt] at h
      cases he : evalE st.env e with
      | ok v =>
          rw [he] at h
          simp only [Res.ok.injEq] at h
          subst h
          exact envLe_refl _
      | error er =>
          rw [he] at h
          simp at h

/-- Every executor only grows the environment: a binding present before
is still present (possibly overwritten) after normal completion.  The
program only ever writes `self.env[...] = ...`; nothing deletes keys. -/
lemma envGrow : ∀ f : Nat,
    (∀ lines i st j st2, execLines f lines i st = .ok (j, st2) → envLe st.env st2.env) ∧
    (∀ block j st st2, runBlock f block j st = .ok st2 → envLe st.env st2.env) ∧
    (∀ var n e s block st st2,
      counterLoopPos f var n e s block st = .ok st2 → envLe st.env st2.env) ∧
    (∀ var n e s block st st2,
      counterLoopNeg f var n e s block st = .ok st2 → envLe st.env st2.env) ∧
    (∀ var vs block st st2, iterLoop f var vs block st = .ok st2 → envLe st.env st2.env) ∧
    (∀ cond step block st st2, cLoop f cond step block st = .ok st2 → envLe st.env st2.env) := by
  intro f
  induction f with
  | zero =>
      refine ⟨?_, ?_, ?_, ?_, ?_, ?_⟩ <;>
        · intros
          simp_all [execLines_zero, runBlock_zero, counterLoopPos_zero, counterLoopNeg_zero,
            iterLoop_zero, cLoop_zero]
  | succ f ih =>
      obtain ⟨ihE, ihR, ihP, ihN, ihI, ihC⟩ := ih
      refine ⟨?_, ?_, ?_, ?_, ?_, ?_⟩
      · -- _exec_lines
        intro lines i st j st2 h
        rw [execLines_succ] at h
        simp only [execLinesF, interp_execL, interp_runB, interp_ctrP, interp_ctrN,
          interp_itrL, interp_cstL] at h
        cases hline : lines[i]? with
        | none =>
            rw [hline] at h
            simp only [Res.ok.injEq, Prod.mk.injEq] at h
            obtain ⟨-, h2⟩ := h
            subst h2
            exact envLe_refl _
        | some l =>
            cases l with
            | blank =>
                simp only [hline] at h
                exact ihE _ _ _ _ _ h
            | endL =>
                rw [hline] at h
                simp only [Res.ok.injEq, Prod.mk.injEq] at h
                obtain ⟨-, h2⟩ := h
                subst h2
                exact envLe_refl _
            | printL e =>
                simp only [hline] at h
                split at h
                · exact absurd h (by simp)
                · have h2 := ihE _ _ _ _ _ h
                  exact h2
            | assign x e =>
                simp only [hline] at h
                split at h
                · exact absurd h (by simp)
                · exact envLe_trans (envLe_set _ _ _) (ihE _ _ _ _ _ h)
            | unrec t =>
                simp only [hline] at h
                exact absurd h (by simp)
            | forCounter var2 aE bE sE =>
                simp only [hline] at h
                split at h
                · exact absurd h (by simp)
                · split at h
                  · exact absurd h (by simp)
                  · split at h
                    · exact absurd h (by simp)
                    · split at h
                      · exact absurd h (by simp)
                      · split at h
                        · exact absurd h (by simp)
                        · split at h
                          · exact absurd h (by simp)
                          · split at h
                            · exact absurd h (by simp)
                            · split at h
                              · exact absurd h (by simp)
                              · split at h
                                · split at h
                                  · rename_i st1 heq
                                    exact envLe_trans (ihP _ _ _ _ _ _ _ heq)
                                      (ihE _ _ _ _ _ h)
                                  · exact absurd h (by simp)
                                  · exact absurd h (by simp)
                                · split at h
                                  · rename_i st1 heq
                                    exact envLe_trans (ihN _ _ _ _ _ _ _ heq)
                                      (ihE _ _ _ _ _ h)
                                  · exact absurd h (by simp)
                                  · exact absurd h (by simp)
            | forIter var2 cE =>
                simp only [hline] at h
                split at h
                · exact absurd h (by simp)
                · split at h
                  · exact absurd h (by simp)
                  · split at h
                    · split at h
                      · rename_i st1 heq
                        exact envLe_trans (ihI _ _ _ _ _ heq) (ihE _ _ _ _ _ h)
                      · exact absurd h (by simp)
                      · exact absurd h (by simp)
                    · exact absurd h (by simp)
            | forC init cond step =>
                simp only [hline] at h
                split at h
                · exact absurd h (by simp)
                · split at h
                  · rename_i st1 heq
                    split at h
                    · rename_i st3 heq2
                      exact envLe_trans (doClauseOpt_envLe _ _ _ heq)
                        (envLe_trans (ihC _ _ _ _ _ heq2) (ihE _ _ _ _ _ h))
                    · exact absurd h (by simp)
                    · exact absurd h (by simp)
                  · exact absurd h (by simp)
                  · exact absurd h (by simp)
      · -- _run_block
        intro block j st st2 h
        rw [runBlock_succ] at h
        simp only [runBlockF, interp_execL, interp_runB] at h
        split at h
        · split at h
          · rename_i j2 st1 heq
            exact envLe_trans (ihE _ _ _ _ _ heq) (ihR _ _ _ _ h)
          · exact absurd h (by simp)
          · exact absurd h (by simp)
        · simp only [Res.ok.injEq] at h
          subst h
          exact envLe_refl _
      · -- positive counter loop
        intro var n e s block st st2 h
        rw [counterLoopPos_succ] at h
        simp only [ctrPF, interp_runB, interp_ctrP] at h
        split at h
        · split at h
          · rename_i st1 heq
            exact envLe_trans (envLe_set _ _ _)
              (envLe_trans (ihR _ _ _ _ heq) (ihP _ _ _ _ _ _ _ h))
          · exact absurd h (by simp)
          · exact absurd h (by simp)
        · simp only [Res.ok.injEq] at h
          subst h
          exact envLe_refl _
      · -- negative counter loop
        intro var n e s block st st2 h
        rw [counterLoopNeg_succ] at h
        simp only [ctrNF, interp_runB, interp_ctrN] at h
        split at h
        · split at h
          · rename_i st1 heq
            exact envLe_trans (envLe_set _ _ _)
              (envLe_trans (ihR _ _ _ _ heq) (ihN _ _ _ _ _ _ _ h))
          · exact absurd h (by simp)
          · exact absurd h (by simp)
        · simp only [Res.ok.injEq] at h
          subst h
          exact envLe_refl _
      · -- iterator loop
        intro var vs block st st2 h
        rw [iterLoop_succ] at h
        simp only [itrLF, interp_runB, interp_itrL] at h
        split at h
        · simp only [Res.ok.injEq] at h
          subst h
          exact envLe_refl _
        · split at h
          · rename_i st1 heq
            have h2 := envLe_trans (ihR _ _ _ _ heq) (ihI _ _ _ _ _ h)
            exact envLe_trans (envLe_set _ _ _) h2
          · exact absurd h (by simp)
          · exact absurd h (by simp)
      · -- C-style loop
        intro cond step block st st2 h
        rw [cLoop_succ] at h
        simp only [cstLF, interp_runB, interp_cstL] at h
        split at h
        · exact absurd h (by simp)
        · split at h
          · split at h
            · rename_i st1 heq
              split at h
              · rename_i st3 heq2
                exact envLe_trans (ihR _ _ _ _ heq)
                  (envLe_trans (doClauseOpt_envLe _ _ _ heq2) (ihC _ _ _ _ _ h))
              · exact absurd h (by simp)
              · exact absurd h (by simp)
            · exact absurd h (by simp)
            · exact absurd h (by simp)
          · simp only [Res.ok.injEq] at h
            subst h
            exact envLe_refl _

/-! ### Further loop-executor lemmas -/

/-- A C-style loop with an empty condition clause can never complete
normally: the condition is always true, so the only exits are errors
(or fuel exhaustion standing in for an infinite loop). -/
lemma cLoop_none_ne_ok :
    ∀ (f : Nat) (step : Option Clause) (block : List Line) (st st2 : St),
      cLoop f none step block st ≠ .ok st2 := by
  intro f
  induction f with
  | zero =>
      intro step block st st2 h
      simp [cLoop_zero] at h
  | succ f ih =>
      intro step block st st2 h
      rw [cLoop_succ] at h
      simp only [cstLF, interp_runB, interp_cstL, evalCond, if_true] at h
      split at h
      · rename_i st1 heq
        split at h
        · rename_i st3 heq2
          exact ih step block st3 st2 h
        · exact absurd h (by simp)
        · exact absurd h (by simp)
      · exact absurd h (by simp)
      · exact absurd h (by simp)

/-- After a successful `runSeq` whose body does not rebind the loop
variable, the variable holds the last value of the sequence. -/
lemma runSeq_last :
    ∀ (f : Nat) (var : String) (vs : List Int) (block : List Line) (st st2 : St),
      (∀ g t1 t2, runBlock g block 0 t1 = .ok t2 →
        lookupEnv t2.env var = lookupEnv t1.env var) →
      runSeq f var vs block st = .ok st2 →
      ∀ v, vs.getLast? = some v → lookupEnv st2.env var = some (.num v) := by
  intro f
  induction f with
  | zero =>
      intro var vs block st st2 _ h
      simp [runSeq] at h
  | succ f ih =>
      intro var vs block st st2 hpres h v hv
      match vs, hv with
      | [], hv => simp at hv
      | [v2], hv =>
          have hv2 : v2 = v := by simpa using hv
          subst hv2
          simp only [runSeq] at h
          cases hrb : runBlock f block 0 { st with env := setEnv st.env var (.num v2) } with
          | ok st1 =>
              rw [hrb] at h
              match f, h with
              | f + 1, h =>
                  have hst : st1 = st2 := by
                    simp only [runSeq] at h
                    exact Res.ok.inj h
                  subst hst
                  rw [hpres _ _ _ hrb]
                  exact lookup_setEnv_self _ _ _
          | err e2 s2 => rw [hrb] at h; exact absurd h (by simp)
          | timeout => rw [hrb] at h; exact absurd h (by simp)
      | v2 :: v3 :: rest, hv =>
          simp only [runSeq] at h
          cases hrb : runBlock f block 0 { st with env := setEnv st.env var (.num v2) } with
          | ok st1 =>
              rw [hrb] at h
              exact ih var (v3 :: rest) block st1 st2 hpres h v (by simpa using hv)
          | err e2 s2 => rw [hrb] at h; exact absurd h (by simp)
          | timeout => rw [hrb] at h; exact absurd h (by simp)

/-- After a successful iterator loop whose body does not rebind the
loop variable, the variable holds the last element of the collection. -/
lemma iterLoop_last :
    ∀ (f : Nat) (var : String) (vs : List Value) (block : List Line) (st st2 : St),
      (∀ g t1 t2, runBlock g block 0 t1 = .ok t2 →
        lookupEnv t2.env var = lookupEnv t1.env var) →
      iterLoop f var vs block st = .ok st2 →
      ∀ v, vs.getLast? = some v → lookupEnv st2.env var = some v := by
  intro f
  induction f with
  | zero =>
      intro var vs block st st2 _ h
      simp [iterLoop_zero] at h
  | succ f ih =>
      intro var vs block st st2 hpres h v hv
      match vs, hv with
      | [], hv => simp at hv
      | [v2], hv =>
          have hv2 : v2 = v := by simpa using hv
          subst hv2
          rw [iterLoop_succ] at h
          simp only [itrLF, interp_runB, interp_itrL] at h
          cases hrb : runBlock f block 0 { st with env := setEnv st.env var v2 } with
          | ok st1 =>
              rw [hrb] at h
              match f, h with
              | f + 1, h =>
                  have hst : st1 = st2 := by
                    rw [iterLoop_succ] at h
                    exact Res.ok.inj h
                  subst hst
                  rw [hpres _ _ _ hrb]
                  exact lookup_setEnv_self _ _ _
          | err e2 s2 => rw [hrb] at h; exact absurd h (by simp)
          | timeout => rw [hrb] at h; exact absurd h (by simp)
      | v2 :: v3 :: rest, hv =>
          rw [iterLoop_succ] at h
          simp only [itrLF, interp_runB, interp_itrL] at h
          cases hrb : runBlock f block 0 { st with env := setEnv st.env var v2 } with
          | ok st1 =>
              rw [hrb] at h
              exact ih var (v3 :: rest) block st1 st2 hpres h v (by simpa using hv)
          | err e2 s2 => rw [hrb] at h; exact absurd h (by simp)
          | timeout => rw [hrb] at h; exact absurd h (by simp)

/-- Computation of a one-statement body `print <var>`. -/
lemma runBlock_print :
    ∀ (g : Nat) (x : String) (s s2 : St) (v : Value),
      lookupEnv s.env x = some v →
      runBlock g [Line.printL (Expr.var x)] 0 s = .ok s2 →
      s2 = ⟨s.env, s.out ++ [v]⟩ := by
  intro g x s s2 v hv h
  match g with
  | 0 => simp [runBlock_zero] at h
  | g + 1 =>
      rw [runBlock_succ] at h
      simp only [runBlockF, interp_execL, interp_runB] at h
      rw [if_pos (by simp)] at h
      match g with
      | 0 => simp [execLines_zero] at h
      | g + 1 =>
          simp only [execLines_succ, execLinesF, interp_execL] at h
          simp only [List.getElem?_cons_zero, evalE, hv] at h
          match g with
          | 0 => simp [execLines_zero] at h
          | g + 1 =>
              simp only [execLines_succ, execLinesF, interp_execL] at h
              simp only [List.getElem?_cons_succ, List.getElem?_nil] at h
              rw [runBlock_succ] at h
              simp only [runBlockF] at h
              rw [if_neg (by simp)] at h
              exact (Res.ok.inj h).symm

/-- Output trace of an iterator loop whose body is `print <var>`: one
line per element, in the collection's order. -/
lemma iterLoop_print :
    ∀ (f : Nat) (var : String) (vs : List Value) (st st2 : St),
      iterLoop f var vs [Line.printL (Expr.var var)] st = .ok st2 →
      st2.out = st.out ++ vs := by
  intro f
  induction f with
  | zero =>
      intro var vs st st2 h
      simp [iterLoop_zero] at h
  | succ f ih =>
      intro var vs st st2 h
      rw [iterLoop_succ] at h
      simp only [itrLF, interp_runB, interp_itrL] at h
      split at h
      · simp only [Res.ok.injEq] at h
        subst h
        simp
      · rename_i v rest
        split at h
        · rename_i st1 heq
          have hst1 := runBlock_print f var _ st1 v (lookup_setEnv_self _ _ _) heq
          have h2 := ih var rest st1 st2 h
          rw [h2, hst1]
          simp
        · exact absurd h (by simp)
        · exact absurd h (by simp)

/-! ### The claims -/

/-- C1: a counter loop `for v = A to B [by S] do ... end` with numeric
start, end and nonzero step binds `v` successively to `A, A+S, A+2S,
...`, running the body once per value: for `S > 0` exactly the values
`≤ B` (zero iterations when `A > B`), for `S < 0` exactly the values
`≥ B` (zero iterations when `A < B`); when `by` is omitted the step is
`1`; and `for i = 1 to 5 by 2 do print i end` prints exactly 1, 3, 5.
The first two conjuncts state that the loop executor is the run of the
body once per value of the computed sequence, in order; the next four
characterize the sequence; the next two give the zero-iteration cases;
then the default step, and three end-to-end runs. -/
theorem c1_counter_loop_semantics :
    ∀ (f : Nat) (var : String) (a b s : Int) (block : List Line) (st : St),
      (counterLoopPos f var a b s block st = runSeq f var (countSeqF f a b s) block st)
      ∧ (counterLoopNeg f var a b s block st = runSeq f var (countSeqG f a b s) block st)
      ∧ (∀ v ∈ countSeqF f a b s, ∃ k : Nat, v = a + (k : Int) * s ∧ v ≤ b)
      ∧ (∀ v ∈ countSeqG f a b s, ∃ k : Nat, v = a + (k : Int) * s ∧ b ≤ v)
      ∧ (0 < s → ∀ st2, counterLoopPos f var a b s block st = .ok st2 →
          ∀ k : Nat, a + (k : Int) * s ≤ b → (a + (k : Int) * s) ∈ countSeqF f a b s)
      ∧ (s < 0 → ∀ st2, counterLoopNeg f var a b s block st = .ok st2 →
          ∀ k : Nat, b ≤ a + (k : Int) * s → (a + (k : Int) * s) ∈ countSeqG f a b s)
      ∧ (b < a → counterLoopPos (f + 1) var a b s block st = .ok st)
      ∧ (a < b → counterLoopNeg (f + 1) var a b s block st = .ok st)
      ∧ (∀ ρ, evalStep ρ none = .ok (.num 1))
      ∧ run 40 progCounterDemo initSt = .ok ⟨[("i", .num 5)], [.num 1, .num 3, .num 5]⟩
      ∧ run 40 progCounterNoBy initSt = .ok ⟨[("i", .num 3)], [.num 1, .num 2, .num 3]⟩
      ∧ run 10 progCounterEmpty initSt = .ok ⟨[], []⟩ := by
  intro f var a b s block st
  exact ⟨counterLoopPos_eq_runSeq f var a b s block st,
         counterLoopNeg_eq_runSeq f var a b s block st,
         fun v hv => countSeqF_mem f a b s v hv,
         fun v hv => countSeqG_mem f a b s v hv,
         fun hs st2 h => counterLoopPos_ok_complete f var a b s block st st2 hs h,
         fun hs st2 h => counterLoopNeg_ok_complete f var a b s block st st2 hs h,
         fun hlt => counterLoopPos_empty f var a b s block st hlt,
         fun hlt => counterLoopNeg_empty f var a b s block st hlt,
         fun _ => rfl, rfl, rfl, rfl⟩

theorem c1_counter_loop_semantics_witness :
    counterLoopPos 20 "z" 7 3 1 [] initSt = .ok initSt
    ∧ counterLoopNeg 20 "z" 3 7 (-1) [] initSt = .ok initSt
    ∧ ((1 : Int) + ((1 : Nat) : Int) * 2) ∈ countSeqF 20 1 5 2 := by
  refine ⟨(c1_counter_loop_semantics 19 "z" 7 3 1 [] initSt).2.2.2.2.2.2.1 (by decide),
          (c1_counter_loop_semantics 19 "z" 3 7 (-1) [] initSt).2.2.2.2.2.2.2.1 (by decide),
          (c1_counter_loop_semantics 20 "z" 1 5 2 [] initSt).2.2.2.2.1 (by decide)
            ⟨[("z", .num 5)], []⟩ rfl 1 (by decide)⟩

/-- C2: after a loop header, the block matcher scans forward with a
depth counter starting at 1, incremented at each header and
decremented at each terminator; when it reaches 0 the body is exactly
the lines strictly between the header and that terminator (terminator
excluded) and the returned index is just past the terminator; every
earlier terminator closes a nested header (strictly more headers than
terminators precede it), a header immediately followed by a terminator
yields an empty body, and the two-sequential-nested-loops regression
program runs correctly. -/
theorem c2_block_matcher :
    ∀ (lines : List Line) (i : Nat),
      (∀ blk j, collectBlock lines i = .ok (blk, j) →
        i < j ∧ j ≤ lines.length
        ∧ blk = (lines.drop i).take (j - 1 - i)
        ∧ lines[j - 1]? = some Line.endL
        ∧ blk.countP isHeader = blk.countP isEnd
        ∧ (∀ m, i ≤ m → m < j - 1 → lines[m]? = some Line.endL →
            ((lines.drop i).take (m - i)).countP isEnd
              < ((lines.drop i).take (m - i)).countP isHeader))
      ∧ (lines[i]? = some Line.endL → collectBlock lines i = .ok ([], i + 1))
      ∧ run 60 progTwoNested initSt
          = .ok ⟨[("i", .num 2), ("j", .num 1), ("k", .num 2), ("l", .num 1)],
                 [.num 1, .num 2, .num 1, .num 2]⟩ := by
  intro lines i
  refine ⟨?_, collectBlock_end lines i, rfl⟩
  intro blk j h
  obtain ⟨m, hm, hj, hblk, hend, hcount, hmin⟩ :=
    collectAux_ok (lines.drop i) i 1 [] blk j (le_refl 1) h
  rw [List.reverse_nil, List.nil_append] at hblk
  have hlen : (lines.drop i).length = lines.length - i := by simp
  refine ⟨by omega, by omega, ?_, ?_, ?_, ?_⟩
  · rw [hblk]
    congr 1
    omega
  · rw [List.getElem?_drop] at hend
    have hidx : i + m = j - 1 := by omega
    rw [hidx] at hend
    exact hend
  · rw [hblk]
    omega
  · intro m2 him2 hm2j hend2
    have hlt := hmin (m2 - i) (by omega) ?_
    · omega
    · rw [List.getElem?_drop]
      have hidx : i + (m2 - i) = m2 := by omega
      rw [hidx]
      exact hend2

theorem c2_block_matcher_witness :
    linesNestedDemo[3]? = some Line.endL
    ∧ collectBlock linesNestedDemo 2 = .ok ([], 3) := by
  refine ⟨?_, (c2_block_matcher linesNestedDemo 2).2.1 rfl⟩
  have h := (c2_block_matcher linesNestedDemo 1).1
    [Line.forIter "b" (.lit (.num 2)), Line.endL] 4 rfl
  exact h.2.2.2.1

/-- C3: for a C-style loop `for (init; cond; step) do ... end`, the
init clause runs exactly once before the first condition check (fifth
conjunct: the executor collects the block, runs the init clause once,
and enters the loop), the condition is a pre-test evaluated before
every body execution with an empty condition always true (first,
second, third conjuncts: a falsy condition exits at once with the body
not run and the state unchanged, an empty condition never lets the
loop complete normally), the step clause runs after every body
execution and before the next condition check (fourth conjunct: the
one-iteration unfolding is body, then step, then re-test), and
`for (j = 0; j < 3; j = j + 1) do print j end` prints 0, 1, 2. -/
theorem c3_cstyle_protocol :
    ∀ (f : Nat) (cond : Option Expr) (step : Option Clause) (block : List Line) (st : St),
      (∀ ρ, evalCond ρ none = .ok true)
      ∧ (∀ st2, cLoop f none step block st ≠ .ok st2)
      ∧ (evalCond st.env cond = .ok false → cLoop (f + 1) cond step block st = .ok st)
      ∧ (evalCond st.env cond = .ok true →
          cLoop (f + 1) cond step block st =
            match runBlock f block 0 st with
            | .ok st1 =>
                (match doClauseOpt step st1 with
                 | .ok st2 => cLoop f cond step block st2
                 | .err e s2 => .err e s2
                 | .timeout => .timeout)
            | .err e s2 => .err e s2
            | .timeout => .timeout)
      ∧ (∀ (lines : List Line) (i : Nat) (init : Option Clause) (blockB : List Line) (j : Nat),
          lines[i]? = some (.forC init cond step) →
          collectBlock lines (i + 1) = .ok (blockB, j) →
          execLines (f + 1) lines i st =
            match doClauseOpt init st with
            | .ok st1 =>
                (match cLoop f cond step blockB st1 with
                 | .ok st2 => execLines f lines j st2
                 | .err e s2 => .err e s2
                 | .timeout => .timeout)
            | .err e s2 => .err e s2
            | .timeout => .timeout)
      ∧ run 40 progCDemo initSt = .ok ⟨[("j", .num 3)], [.num 0, .num 1, .num 2]⟩
      ∧ run 40 progWhileStyle initSt = .ok ⟨[("x", .num 0)], [.num 2, .num 1]⟩ := by
  intro f cond step block st
  refine ⟨fun _ => rfl, cLoop_none_ne_ok f step block st, ?_, ?_, ?_, rfl, rfl⟩
  · intro hcond
    rw [cLoop_succ]
    simp only [cstLF, interp_runB, interp_cstL]
    simp [hcond]
  · intro hcond
    rw [cLoop_succ]
    simp only [cstLF, interp_runB, interp_cstL]
    simp [hcond]
  · intro lines i init blockB j hline hcol
    rw [execLines_succ]
    simp only [execLinesF, interp_execL, interp_cstL]
    simp only [hline, hcol]

theorem c3_cstyle_protocol_witness :
    cLoop 6 (some (.lt (.var "j") (.lit (.num 3))))
        (some (.cassign "j" (.add (.var "j") (.lit (.num 1)))))
        [.printL (.var "j")] ⟨[("j", .num 5)], []⟩ = .ok ⟨[("j", .num 5)], []⟩
    ∧ cLoop 5 none none [] initSt ≠ .ok initSt
    ∧ cLoop 6 (some (.lt (.var "j") (.lit (.num 3))))
        (some (.cassign "j" (.add (.var "j") (.lit (.num 1)))))
        [.printL (.var "j")] ⟨[("j", .num 0)], []⟩
        = .ok ⟨[("j", .num 3)], [.num 0, .num 1, .num 2]⟩
    ∧ execLines 7 progCDemo 0 initSt
        = .ok (3, ⟨[("j", .num 3)], [.num 0, .num 1, .num 2]⟩) := by
  refine ⟨(c3_cstyle_protocol 5 (some (.lt (.var "j") (.lit (.num 3))))
            (some (.cassign "j" (.add (.var "j") (.lit (.num 1)))))
            [.printL (.var "j")] ⟨[("j", .num 5)], []⟩).2.2.1 rfl,
          (c3_cstyle_protocol 5 none none [] initSt).2.1 initSt, ?_, ?_⟩
  · have h := (c3_cstyle_protocol 5 (some (.lt (.var "j") (.lit (.num 3))))
      (some (.cassign "j" (.add (.var "j") (.lit (.num 1)))))
      [.printL (.var "j")] ⟨[("j", .num 0)], []⟩).2.2.2.1 rfl
    rw [h]
    rfl
  · have h := (c3_cstyle_protocol 6 (some (.lt (.var "j") (.lit (.num 3))))
      (some (.cassign "j" (.add (.var "j") (.lit (.num 1)))))
      [] initSt).2.2.2.2.1 progCDemo 0 (some (.cassign "j" (.lit (.num 0))))
      [.printL (.var "j")] 3 rfl rfl
    rw [h]
    rfl

/-- C4: an iterator loop `for v in EXPR do ... end` over a traversable
collection executes the body exactly once per element in the
collection's order, binding `v` to the element before each body
execution (second conjunct: the one-element unfolding binds then runs
the body, then continues with the remaining elements; third conjunct:
with a `print v` body the output is exactly the element list in
order); an empty collection executes the body zero times and is not an
error (first conjunct); and `for w in ["Hello","Bonjour"] do print w
end` prints Hello then Bonjour. -/
theorem c4_iterator_loop :
    ∀ (f : Nat) (var : String) (v : Value) (vs : List Value) (block : List Line)
      (st st2 : St),
      iterLoop (f + 1) var [] block st = .ok st
      ∧ (iterLoop (f + 1) var (v :: vs) block st =
          match runBlock f block 0 ⟨setEnv st.env var v, st.out⟩ with
          | .ok st1 => iterLoop f var vs block st1
          | .err e s2 => .err e s2
          | .timeout => .timeout)
      ∧ (iterLoop f var vs [Line.printL (Expr.var var)] st = .ok st2 →
          st2.out = st.out ++ vs)
      ∧ run 40 progIterDemo initSt
          = .ok ⟨[("w", .str "Bonjour")], [.str "Hello", .str "Bonjour"]⟩ := by
  intro f var v vs block st st2
  exact ⟨rfl, rfl, fun h => iterLoop_print f var vs st st2 h, rfl⟩

theorem c4_iterator_loop_witness :
    (⟨[("w", Value.str "b")], [Value.str "a", Value.str "b"]⟩ : St).out
      = initSt.out ++ [Value.str "a", Value.str "b"] := by
  exact (c4_iterator_loop 10 "w" (Value.str "a") [Value.str "a", Value.str "b"]
    [] initSt ⟨[("w", Value.str "b")], [Value.str "a", Value.str "b"]⟩).2.2.1 rfl

/-- C5: when execution reaches a loop header whose body has no matching
terminator, the run fails with the fatal missing-terminator syntax
error (the only error the block matcher can raise — first conjunct;
second conjunct: on failure no depth-balanced terminator exists in the
remaining text), the failure is raised before the body runs and with
the state unchanged — in particular before any output of a sibling
statement after the malformed block (third to fifth conjuncts, one per
header form; last conjunct: end-to-end, the sibling `print 20` after
the malformed block contributes no output). -/
theorem c5_missing_terminator :
    ∀ (f : Nat) (lines : List Line) (i : Nat) (st : St),
      (∀ (rest : List Line) (i2 depth : Nat) (acc : List Line) (e : Err),
        collectBlockAux rest i2 depth acc = .error e → e = .missingEnd)
      ∧ (collectBlock lines i = .error .missingEnd →
          ∀ m, (lines.drop i)[m]? = some Line.endL →
            1 + ((lines.drop i).take m).countP isEnd
              < 1 + ((lines.drop i).take m).countP isHeader)
      ∧ (∀ var aE bE sE av bv sv e,
          lines[i]? = some (.forCounter var aE bE sE) →
          evalE st.env aE = .ok av → evalE st.env bE = .ok bv →
          evalStep st.env sE = .ok sv → pyEqZero sv = false →
          collectBlock lines (i + 1) = .error e →
          execLines (f + 1) lines i st = .err e st)
      ∧ (∀ var cE cv e,
          lines[i]? = some (.forIter var cE) →
          evalE st.env cE = .ok cv →
          collectBlock lines (i + 1) = .error e →
          execLines (f + 1) lines i st = .err e st)
      ∧ (∀ init cond step e,
          lines[i]? = some (.forC init cond step) →
          collectBlock lines (i + 1) = .error e →
          execLines (f + 1) lines i st = .err e st)
      ∧ run 10 progMissingEnd initSt = .err .missingEnd ⟨[], [.num 10]⟩ := by
  intro f lines i st
  refine ⟨fun rest i2 depth acc e h => collectAux_err_kind rest i2 depth acc e h,
          ?_, ?_, ?_, ?_, rfl⟩
  · intro h m hm
    exact collectAux_err (lines.drop i) i 1 [] (le_refl 1) h m hm
  · intro var aE bE sE av bv sv e hline ha hb hs hz hcol
    rw [execLines_succ]
    simp only [execLinesF, interp_execL]
    simp [hline, ha, hb, hs, hz, hcol]
  · intro var cE cv e hline hc hcol
    rw [execLines_succ]
    simp only [execLinesF, interp_execL]
    simp [hline, hc, hcol]
  · intro init cond step e hline hcol
    rw [execLines_succ]
    simp only [execLinesF, interp_execL]
    simp [hline, hcol]

theorem c5_missing_terminator_witness :
    (1 + ((linesMissingNested.drop 1).take 1).countP isEnd
      < 1 + ((linesMissingNested.drop 1).take 1).countP isHeader)
    ∧ execLines 5 progCtrNoEnd 0 initSt = .err .missingEnd initSt
    ∧ execLines 5 progIterNoEnd 0 initSt = .err .missingEnd initSt
    ∧ execLines 5 progCNoEnd 0 initSt = .err .missingEnd initSt := by
  refine ⟨(c5_missing_terminator 4 linesMissingNested 1 initSt).2.1 rfl 1 rfl,
          (c5_missing_terminator 4 progCtrNoEnd 0 initSt).2.2.1 "i"
            (.lit (.num 1)) (.lit (.num 3)) none (.num 1) (.num 3) (.num 1)
            .missingEnd rfl rfl rfl rfl rfl rfl,
          (c5_missing_terminator 4 progIterNoEnd 0 initSt).2.2.2.1 "w"
            (.lit (.list [])) (.list []) .missingEnd rfl rfl rfl,
          (c5_missing_terminator 4 progCNoEnd 0 initSt).2.2.2.2.1 none none none
            .missingEnd rfl rfl⟩

/-- C6: a counter loop whose step expression evaluates to exactly zero
fails with the fatal configuration error (`ValueError("by step cannot
be 0")`) regardless of the start and end values (they are arbitrary
evaluated values here, not even required to be numbers), raised before
the body executes even once: the result state is exactly the state at
the header, with no output and no bindings from the body. -/
theorem c6_zero_step :
    ∀ (f : Nat) (lines : List Line) (i : Nat) (st : St) (var : String) (aE bE : Expr)
      (sE : Option Expr) (av bv : Value),
      (lines[i]? = some (.forCounter var aE bE sE) →
        evalE st.env aE = .ok av → evalE st.env bE = .ok bv →
        evalStep st.env sE = .ok (.num 0) →
        execLines (f + 1) lines i st = .err .zeroStep st)
      ∧ run 10 progZeroStep initSt = .err .zeroStep ⟨[], []⟩ := by
  intro f lines i st var aE bE sE av bv
  refine ⟨?_, rfl⟩
  intro hline ha hb hs
  rw [execLines_succ]
  simp only [execLinesF, interp_execL]
  simp [hline, ha, hb, hs, pyEqZero]

theorem c6_zero_step_witness :
    execLines 5 progZeroStepStr 0 initSt = .err .zeroStep initSt := by
  exact (c6_zero_step 4 progZeroStepStr 0 initSt "i" (.lit (.str "x")) (.lit (.num 1))
    (some (.lit (.num 0))) (.str "x") (.num 1)).1 rfl rfl rfl rfl

/-- C7 (counterexample): the unrecognized-line failure does not cite
the line's 1-based position in the whole program text when the line
sits inside a loop body.  In `progBadLine` the offending line `bad` is
the third program line (position 3, index 2), yet the raised error is
`Unrecognized line 1: bad`, because `_run_block` passes the body
sublist to `_exec_lines` and the reported index is relative to it. -/
theorem c7_unrecognized_counterexample :
    run 20 progBadLine initSt
      = .err (.unrecognized 1 "bad") ⟨[("x", .num 1), ("i", .num 1)], []⟩
    ∧ progBadLine[2]? = some (.unrec "bad")
    ∧ (2 + 1 : Nat) ≠ 1 := by
  exact ⟨rfl, rfl, by decide⟩

/-- C7 (amended): a line that execution reaches and that matches no
recognized form aborts with a fatal parse failure citing the line's
literal text and its 1-based position within the line sequence
currently being executed — the whole program at top level (where this
equals the program-text position), the enclosing body block inside a
loop. -/
theorem c7_unrecognized_line :
    ∀ (f : Nat) (lines : List Line) (i : Nat) (st : St) (t : String),
      (lines[i]? = some (.unrec t) →
        execLines (f + 1) lines i st = .err (.unrecognized (i + 1) t) st)
      ∧ run 10 progBadTop initSt = .err (.unrecognized 2 "oops") ⟨[("x", .num 1)], []⟩ := by
  intro f lines i st t
  refine ⟨?_, rfl⟩
  intro hline
  rw [execLines_succ]
  simp only [execLinesF, interp_execL]
  simp [hline]

theorem c7_unrecognized_line_witness :
    execLines 5 progBadTop 1 ⟨[("x", .num 1)], []⟩
      = .err (.unrecognized 2 "oops") ⟨[("x", .num 1)], []⟩ := by
  exact (c7_unrecognized_line 4 progBadTop 1 ⟨[("x", .num 1)], []⟩ "oops").1 rfl

/-- C8 (counterexample): a stray `end` reached without an enclosing
header context does not make the engine fail: `_exec_lines` silently
returns at the terminator (second conjunct) and the driver resumes
just past it, so the program `end / x = 1` completes normally with the
following assignment executed (first conjunct). -/
theorem c8_stray_end_counterexample :
    run 10 progStrayEnd initSt = .ok ⟨[("x", .num 1)], []⟩
    ∧ execLines 9 progStrayEnd 0 initSt = .ok (0, initSt) := by
  exact ⟨rfl, rfl⟩

/-- C8 (amended): a terminator reached without an enclosing active
header context is silently skipped, not an invariant violation: the
statement executor returns control at the terminator line with the
state untouched, and top-level execution resumes with the statements
after it. -/
theorem c8_stray_end_silent :
    ∀ (f : Nat) (lines : List Line) (i : Nat) (st : St),
      (lines[i]? = some Line.endL → execLines (f + 1) lines i st = .ok (i, st))
      ∧ run 10 progStrayEnd initSt = .ok ⟨[("x", .num 1)], []⟩ := by
  intro f lines i st
  refine ⟨?_, rfl⟩
  intro hline
  rw [execLines_succ]
  simp only [execLinesF, interp_execL]
  simp [hline]

theorem c8_stray_end_silent_witness :
    execLines 5 progStrayEnd 0 initSt = .ok (0, initSt) := by
  exact (c8_stray_end_silent 4 progStrayEnd 0 initSt).1 rfl

/-- C9: loop control variables are ordinary entries of the single
shared environment and persist after the loop exits with the value
bound on the last body iteration; nothing ever unbinds an environment
entry (first conjunct: any normally-completing execution preserves
every bound key).  The second and third conjuncts state, for the
counter and iterator executors, that when the loop completes normally
after at least one iteration (a nonempty value sequence) and the body
does not itself rebind the variable, the variable ends bound to the
last iterated value.  The closed conjuncts run one loop of each of the
three forms followed by a `print` of its variable after the loop. -/
theorem c9_loop_var_persists :
    ∀ (f : Nat) (lines : List Line) (i : Nat) (st : St) (j : Nat) (st2 : St)
      (var : String) (a b s : Int) (vs : List Value) (block : List Line),
      (execLines f lines i st = .ok (j, st2) →
        ∀ k, (lookupEnv st.env k).isSome = true → (lookupEnv st2.env k).isSome = true)
      ∧ ((∀ g t1 t2, runBlock g block 0 t1 = .ok t2 →
            lookupEnv t2.env var = lookupEnv t1.env var) →
          counterLoopPos f var a b s block st = .ok st2 →
          ∀ v, (countSeqF f a b s).getLast? = some v →
            lookupEnv st2.env var = some (.num v))
      ∧ ((∀ g t1 t2, runBlock g block 0 t1 = .ok t2 →
            lookupEnv t2.env var = lookupEnv t1.env var) →
          iterLoop f var vs block st = .ok st2 →
          ∀ v, vs.getLast? = some v → lookupEnv st2.env var = some v)
      ∧ run 30 progCounterPersist initSt = .ok ⟨[("i", .num 3)], [.num 3]⟩
      ∧ run 30 progIterPersist initSt = .ok ⟨[("w", .num 20)], [.num 20]⟩
      ∧ run 40 progCPersist initSt = .ok ⟨[("j", .num 2)], [.num 2]⟩ := by
  intro f lines i st j st2 var a b s vs block
  refine ⟨fun h k hk => (envGrow f).1 lines i st j st2 h k hk, ?_, ?_, rfl, rfl, rfl⟩
  · intro hpres h v hv
    rw [counterLoopPos_eq_runSeq] at h
    exact runSeq_last f var (countSeqF f a b s) block st st2 hpres h v hv
  · intro hpres h v hv
    exact iterLoop_last f var vs block st st2 hpres h v hv

theorem c9_loop_var_persists_witness :
    (lookupEnv [("x", Value.num 1), ("y", Value.num 2)] "x").isSome = true
    ∧ lookupEnv [("i", Value.num 3)] "i" = some (.num 3)
    ∧ lookupEnv [("w", Value.num 20)] "w" = some (.num 20) := by
  have hpres : ∀ g (t1 t2 : St), runBlock g [] 0 t1 = .ok t2 →
      lookupEnv t2.env "i" = lookupEnv t1.env "i" := by
    intro g t1 t2 hh
    match g with
    | 0 => simp [runBlock_zero] at hh
    | g + 1 =>
        rw [runBlock_succ] at hh
        simp only [runBlockF] at hh
        rw [if_neg (by simp)] at hh
        rw [Res.ok.inj hh]
  have hpres2 : ∀ g (t1 t2 : St), runBlock g [] 0 t1 = .ok t2 →
      lookupEnv t2.env "w" = lookupEnv t1.env "w" := by
    intro g t1 t2 hh
    match g with
    | 0 => simp [runBlock_zero] at hh
    | g + 1 =>
        rw [runBlock_succ] at hh
        simp only [runBlockF] at hh
        rw [if_neg (by simp)] at hh
        rw [Res.ok.inj hh]
  refine ⟨(c9_loop_var_persists 5 [.assign "y" (.lit (.num 2))] 0
            ⟨[("x", .num 1)], []⟩ 1 ⟨[("x", .num 1), ("y", .num 2)], []⟩
            "i" 1 3 1 [] []).1 rfl "x" rfl,
          (c9_loop_var_persists 10 [] 0 initSt 0 ⟨[("i", .num 3)], []⟩
            "i" 1 3 1 [] []).2.1 hpres rfl 3 rfl,
          (c9_loop_var_persists 10 [] 0 initSt 0 ⟨[("w", .num 20)], []⟩
            "w" 1 3 1 [.num 10, .num 20] []).2.2.1 hpres2 rfl (.num 20) rfl⟩

/-- C10: header evaluation and terminator matching are ordered
differently per loop form.  For a counter header the start/end/step
expressions are evaluated and the zero-step check performed before the
terminator is located (first and second conjuncts hold with no
assumption on the terminator), for an iterator header the collection
expression is evaluated before the terminator is located (third
conjunct), but for a C-style header the terminator is matched first and
the init clause runs only afterwards (fourth conjunct: a missing
terminator wins over any init clause, which never runs).  The closed
conjuncts show an unterminated counter loop reporting the evaluation
failure and the zero step rather than the missing terminator, and an
unterminated C-style loop reporting the missing terminator even though
its init clause would fail. -/
theorem c10_header_eval_order :
    ∀ (f : Nat) (lines : List Line) (i : Nat) (st : St),
      (∀ var aE bE sE e,
        lines[i]? = some (.forCounter var aE bE sE) →
        evalE st.env aE = .error e →
        execLines (f + 1) lines i st = .err e st)
      ∧ (∀ var aE bE sE av bv sv,
        lines[i]? = some (.forCounter var aE bE sE) →
        evalE st.env aE = .ok av → evalE st.env bE = .ok bv →
        evalStep st.env sE = .ok sv → pyEqZero sv = true →
        execLines (f + 1) lines i st = .err .zeroStep st)
      ∧ (∀ var cE e,
        lines[i]? = some (.forIter var cE) →
        evalE st.env cE = .error e →
        execLines (f + 1) lines i st = .err e st)
      ∧ (∀ init cond step e,
        lines[i]? = some (.forC init cond step) →
        collectBlock lines (i + 1) = .error e →
        execLines (f + 1) lines i st = .err e st)
      ∧ run 10 progFailHeaderNoEnd initSt = .err (.evalFail "boom") ⟨[], []⟩
      ∧ run 10 progFailIterNoEnd initSt = .err (.evalFail "boom") ⟨[], []⟩
      ∧ run 10 progZeroStepNoEnd initSt = .err .zeroStep ⟨[], []⟩
      ∧ run 10 progFailInitNoEnd initSt = .err .missingEnd ⟨[], []⟩ := by
  intro f lines i st
  refine ⟨?_, ?_, ?_, ?_, rfl, rfl, rfl, rfl⟩
  · intro var aE bE sE e hline ha
    rw [execLines_succ]
    simp only [execLinesF, interp_execL]
    simp [hline, ha]
  · intro var aE bE sE av bv sv hline ha hb hs hz
    rw [execLines_succ]
    simp only [execLinesF, interp_execL]
    simp [hline, ha, hb, hs, hz]
  · intro var cE e hline hc
    rw [execLines_succ]
    simp only [execLinesF, interp_execL]
    simp [hline, hc]
  · intro init cond step e hline hcol
    rw [execLines_succ]
    simp only [execLinesF, interp_execL]
    simp [hline, hcol]

theorem c10_header_eval_order_witness :
    execLines 5 progFailHeaderNoEnd 0 initSt = .err (.evalFail "boom") initSt
    ∧ execLines 5 progZeroStepNoEnd 0 initSt = .err .zeroStep initSt
    ∧ execLines 5 progFailIterNoEnd 0 initSt = .err (.evalFail "boom") initSt
    ∧ execLines 5 progFailInitNoEnd 0 initSt = .err .missingEnd initSt := by
  refine ⟨(c10_header_eval_order 4 progFailHeaderNoEnd 0 initSt).1 "i"
            (.fail "boom") (.lit (.num 3)) none (.evalFail "boom") rfl rfl,
          (c10_header_eval_order 4 progZeroStepNoEnd 0 initSt).2.1 "i"
            (.lit (.num 1)) (.lit (.num 3)) (some (.lit (.num 0)))
            (.num 1) (.num 3) (.num 0) rfl rfl rfl rfl rfl,
          (c10_header_eval_order 4 progFailIterNoEnd 0 initSt).2.2.1 "w"
            (.fail "boom") (.evalFail "boom") rfl rfl,
          (c10_header_eval_order 4 progFailInitNoEnd 0 initSt).2.2.2.1
            (some (.cassign "x" (.fail "boom"))) none none .missingEnd rfl rfl⟩

end JFor
